import Mathlib

/-!
Verification model of the CSP multi-ticker statistics pipeline
(`csp_multi_ticker_websocket_parquet.py`).

The source is a csp dataflow graph.  We embed it shallowly:

* Engine time is `Nat` milliseconds since engine start.  The shared
  1-second trigger (`csp.timer(timedelta(seconds=1))`, built in the main
  graph) ticks at every positive multiple of 1000 ms.
* Each per-key subgraph (`ticker_statistics_subgraph`) is instantiated by
  `csp.dynamic` at the engine time `s` of the key's first trade; the local
  timers it builds (`csp.timer(timedelta(minutes=1))` on line 237 and the
  24h reset timer on line 238) tick at `s + 60000*k` and `s + 86400000*k`.
* A csp time series is modelled by its value as a function of time:
  for each statistic we give the value it holds after its most recent
  tick at or before a given instant, as `Option` (`none` = the series has
  never ticked, csp's "not valid" state).  Within the first 24h reset
  period — where all concrete scenarios in this file live — a statistic
  has ticked iff its warm-up condition is met, so `isSome` coincides with
  `csp.valid`.
* Python floats are modelled by `FV`: exact rationals plus the IEEE
  non-finite values.  Division by zero follows IEEE (0/0 = NaN,
  x/0 = ±inf for x ≠ 0): csp's arithmetic nodes are C++ double
  operations and do not guard the denominator.
* `csp.stats` functions with a `trigger` tick at every trigger tick once
  `min_window` has elapsed since the node started (= subgraph creation),
  even when the trailing window is empty: an empty window gives count 0,
  sum 0, and NaN for mean/stddev (ddof = 1, so fewer than 2 samples also
  give NaN).
-/

attribute [local semireducible] Rat.add Rat.mul Rat.inv Rat.sub

/-- Model of an IEEE double: a finite rational, NaN, or a signed infinity. -/
inductive FV where
  | num (q : ℚ)
  | nan
  | inf
  | ninf
deriving DecidableEq, Repr

/-- IEEE addition on `FV` (finite cases exact; NaN absorbs; inf + ninf = NaN). -/
def fadd : FV → FV → FV
  | FV.num a, FV.num b => FV.num (a + b)
  | FV.nan, _ => FV.nan
  | _, FV.nan => FV.nan
  | FV.inf, FV.ninf => FV.nan
  | FV.ninf, FV.inf => FV.nan
  | FV.inf, _ => FV.inf
  | _, FV.inf => FV.inf
  | FV.ninf, _ => FV.ninf
  | _, FV.ninf => FV.ninf

/-- IEEE negation on `FV`. -/
def fneg : FV → FV
  | FV.num a => FV.num (-a)
  | FV.nan => FV.nan
  | FV.inf => FV.ninf
  | FV.ninf => FV.inf

/-- IEEE subtraction on `FV`. -/
def fsub (a b : FV) : FV := fadd a (fneg b)

/-- IEEE division on `FV`: a zero denominator gives NaN (0/0) or a signed
infinity, never an error — the behaviour of `csp.divide` on C++ doubles. -/
def fdiv : FV → FV → FV
  | FV.num a, FV.num b =>
      if b = 0 then (if a = 0 then FV.nan else if 0 < a then FV.inf else FV.ninf)
      else FV.num (a / b)
  | FV.nan, _ => FV.nan
  | _, FV.nan => FV.nan
  | FV.inf, FV.inf => FV.nan
  | FV.inf, FV.ninf => FV.nan
  | FV.ninf, FV.inf => FV.nan
  | FV.ninf, FV.ninf => FV.nan
  | FV.inf, FV.num b => if 0 ≤ b then FV.inf else FV.ninf
  | FV.ninf, FV.num b => if 0 ≤ b then FV.ninf else FV.inf
  | FV.num _, FV.inf => FV.num 0
  | FV.num _, FV.ninf => FV.num 0

/-- IEEE comparison `x > q` against a finite threshold: false for NaN and
-inf, true for +inf.  Models the `individual_stats.volumn_60s > 1000` node. -/
def fgt : FV → ℚ → Bool
  | FV.num a, q => decide (q < a)
  | FV.inf, _ => true
  | FV.nan, _ => false
  | FV.ninf, _ => false

/-- Whether an `FV` is a finite value inside the closed interval of 0 and 1. -/
def fIn01 : FV → Bool
  | FV.num a => decide (0 ≤ a ∧ a ≤ 1)
  | _ => false

/-- The crypto trade struct (`CryptoTradeData`, source lines 23-31).
`arrival` is the engine time at which the push adapter delivered the trade
(implicit in the source's realtime push semantics); `timestamp` is the
exchange timestamp carried in the message (ms), from which the source
derives `trade_time` (lines 137-146).  `volume` is computed as
`price * size` on construction (line 144), modelled as a function. -/
structure CryptoTradeData where
  pair : String
  price : ℚ
  size : ℚ
  arrival : Nat
  timestamp : Nat
  sellorbuy : Nat
  exchange : Nat
deriving DecidableEq, Repr

/-- `volume = price * size` (source line 144). -/
def CryptoTradeData.volume (tr : CryptoTradeData) : ℚ := tr.price * tr.size

/-- `trade_time` is the datetime form of the exchange timestamp (line 138);
we keep it as the same millisecond count. -/
def CryptoTradeData.trade_time (tr : CryptoTradeData) : Nat := tr.timestamp

/-- The per-ticker statistics record (`TickerStatisticsData`, lines 34-50).
`timestamp` is `trade_time.timestamp()`, i.e. seconds, hence rational. -/
structure TickerStatisticsData where
  pair : String
  trade_count : FV
  VWA : FV
  EWA60s : FV
  EWA120s : FV
  EWA180s : FV
  return_1min : FV
  volitality_60s : FV
  volitality_MA5mins : FV
  volitality_stddev : FV
  sell_count : FV
  buy_count : FV
  buy_pressure : FV
  volumn_60s : FV
  timestamp : ℚ
  trade_time : Nat
deriving DecidableEq, Repr

/-- A default record, used only as the `getD` fallback of list heads. -/
def emptyStats : TickerStatisticsData :=
  { pair := "", trade_count := FV.nan, VWA := FV.nan, EWA60s := FV.nan,
    EWA120s := FV.nan, EWA180s := FV.nan, return_1min := FV.nan,
    volitality_60s := FV.nan, volitality_MA5mins := FV.nan,
    volitality_stddev := FV.nan, sell_count := FV.nan, buy_count := FV.nan,
    buy_pressure := FV.nan, volumn_60s := FV.nan, timestamp := 0,
    trade_time := 0 }

/-- The shared 1-second trigger of the main graph (line 305): ticks at every
positive multiple of 1000 ms after engine start. -/
def timer1sTick (t : Nat) : Bool := decide (0 < t ∧ t % 1000 = 0)

/-- The shared 1-minute timer of the main graph (line 306). -/
def timer1mTick (t : Nat) : Bool := decide (0 < t ∧ t % 60000 = 0)

/-- The subgraph-local 1-minute timer (line 237, shadowing the `timer1m`
parameter): ticks at `s + 60000*k`, `k ≥ 1`, where `s` is the engine time
at which the subgraph was created. -/
def localMinuteTick (s t : Nat) : Bool := decide (s < t ∧ (t - s) % 60000 = 0)

/-- Time of the most recent shared 1-second trigger tick at or before `t`
(0 when no trigger has fired yet). -/
def floor1s (t : Nat) : Nat := 1000 * (t / 1000)

/-- The ascending list of 1-second trigger times at or before `u`. -/
def ticks1s (u : Nat) : List Nat := (List.range (u / 1000)).map (fun i => 1000 * (i + 1))

/-- Time of the most recent tick of the subgraph's 24h reset timer
(line 238) at or before `u`; before the first reset this is the creation
time `s` itself (no data is discarded). -/
def lastReset (s u : Nat) : Nat := s + 86400000 * ((u - s) / 86400000)

/-- Trades in the trailing window `(u - win, u]` by engine arrival time:
the contents of a `csp.stats` time-interval window at trigger time `u`. -/
def windowTrades (hist : List CryptoTradeData) (win u : Nat) : List CryptoTradeData :=
  hist.filter (fun tr => tr.arrival ≤ u && u < tr.arrival + win)

/-- Extracts the rationals from a list of `FV`s; `none` when a non-finite
value is present (a NaN in a `csp.stats` window poisons the statistic:
`ignore_na` defaults to false). -/
def toNums : List FV → Option (List ℚ)
  | [] => some []
  | FV.num q :: rest => (toNums rest).map (fun l => q :: l)
  | _ => none

/-- Mean of a window of floats: NaN when empty or poisoned by a
non-finite value, else the exact rational mean. -/
def meanFV (l : List FV) : FV :=
  match toNums l with
  | none => FV.nan
  | some qs =>
      if qs.length = 0 then FV.nan
      else FV.num (qs.sum / (qs.length : ℚ))

/-- Sample variance (ddof = 1) of a window of floats: NaN when fewer than
two samples or poisoned.  The source takes `csp.stats.stddev`, i.e. the
square root of this quantity; the square root of a nonnegative rational is
irrational in general, and no verified property reads the numeric value of
a stddev, so the model returns the variance — definedness and NaN-ness
are identical (sqrt of NaN is NaN, sqrt of a nonnegative value is defined). -/
def varianceFV (l : List FV) : FV :=
  match toNums l with
  | none => FV.nan
  | some qs =>
      if qs.length < 2 then FV.nan
      else
        FV.num ((qs.map (fun x => (x - qs.sum / (qs.length : ℚ)) ^ 2)).sum
          / ((qs.length : ℚ) - 1))

/-- Weighted numerator/denominator accumulator of an adjusted EMA with
per-tick decay `a`: each step multiplies both by `a` and adds the new
sample with weight 1. -/
def emaNumDen (a : ℚ) (qs : List ℚ) : ℚ × ℚ :=
  qs.foldl (fun nd x => (a * nd.1 + x, a * nd.2 + 1)) (0, 0)

/-- Adjusted EMA of a tick sequence with per-tick decay `a`.  The source's
`csp.stats.ema` with a halflife uses the decay `2 ^ (-dt/halflife)` per
elapsed interval, an irrational constant; since the samples (VWA) arrive on
the uniform 1-second trigger grid the decay per step is one fixed rational
parameter `a`, over which every theorem is universally quantified. -/
def emaAdjFV (a : ℚ) (xs : List FV) : FV :=
  match toNums xs with
  | none => FV.nan
  | some qs => fdiv (FV.num (emaNumDen a qs).1) (FV.num (emaNumDen a qs).2)

/-!
  ## Per-key statistics (`ticker_statistics_subgraph`, lines 224-278)

Each definition gives the value the corresponding time series holds as of
the 1-second trigger tick `u`, for the subgraph created at time `s` over
the key's trade sub-stream `hist` (in arrival order).  `none` means the
series has not ticked.
-/

/-- `trade_count = csp.stats.count(trades.price, interval=60s, min_window=1s,
trigger=timer1s)` (line 241): number of trades in the trailing 60s window,
valid once 1s has elapsed since subgraph creation. -/
def trade_count_at (s : Nat) (hist : List CryptoTradeData) (u : Nat) : Option FV :=
  if s + 1000 ≤ u then
    some (FV.num ((windowTrades hist 60000 u).length : ℚ))
  else none

/-- Sum of `volume` over the trades of the key flagged sell (`sellorbuy == 1`,
lines 244, 247): `csp.stats.sum` over 60s, min_window 5s. -/
def count_sell_at (s : Nat) (hist : List CryptoTradeData) (u : Nat) : Option FV :=
  if s + 5000 ≤ u then
    some (FV.num (((windowTrades hist 60000 u).filter
      (fun tr => tr.sellorbuy = 1)).map CryptoTradeData.volume).sum)
  else none

/-- Sum of `volume` over the trades flagged buy (`sellorbuy == 2`,
lines 245, 248). -/
def count_buy_at (s : Nat) (hist : List CryptoTradeData) (u : Nat) : Option FV :=
  if s + 5000 ≤ u then
    some (FV.num (((windowTrades hist 60000 u).filter
      (fun tr => tr.sellorbuy = 2)).map CryptoTradeData.volume).sum)
  else none

/-- `volumn_sum_1min = csp.stats.sum(trades.volume, interval=60s,
min_window=5s, trigger=timer1s)` (line 257). -/
def volumn_sum_1min_at (s : Nat) (hist : List CryptoTradeData) (u : Nat) : Option FV :=
  if s + 5000 ≤ u then
    some (FV.num (((windowTrades hist 60000 u).map CryptoTradeData.volume).sum))
  else none

/-- The sample buffer of `VWA = csp.stats.mean(trades.price, interval=100,
min_window=1, weights=trades.size, trigger=timer1s, reset=timer_reset)`
(line 251): the last (at most) 100 trades that arrived at or before `u`
and after the most recent 24h reset. -/
def vwaSamples (s : Nat) (hist : List CryptoTradeData) (u : Nat) : List CryptoTradeData :=
  let l := hist.filter (fun tr => lastReset s u ≤ tr.arrival && tr.arrival ≤ u)
  l.drop (l.length - 100)

/-- Whether `VWA` ticks at trigger time `u`: a trigger has fired and the
count window holds at least `min_window = 1` sample. -/
def vwaTicksAt (s : Nat) (hist : List CryptoTradeData) (u : Nat) : Bool :=
  decide (1000 ≤ u) && !(vwaSamples s hist u).isEmpty

/-- The size-weighted mean price over the `VWA` sample buffer. -/
def vwaValAt (s : Nat) (hist : List CryptoTradeData) (u : Nat) : FV :=
  fdiv (FV.num ((vwaSamples s hist u).map (fun tr => tr.size * tr.price)).sum)
       (FV.num ((vwaSamples s hist u).map (fun tr => tr.size)).sum)

/-- `VWA` as a time series. -/
def VWA_at (s : Nat) (hist : List CryptoTradeData) (u : Nat) : Option FV :=
  if vwaTicksAt s hist u then some (vwaValAt s hist u) else none

/-- The 1-second trigger times at or before `u` at which `VWA` ticked. -/
def vwaTickTimes (s : Nat) (hist : List CryptoTradeData) (u : Nat) : List Nat :=
  (ticks1s u).filter (fun w => vwaTicksAt s hist w)

/-- `EWA… = csp.stats.ema(VWA, halflife=…, trigger=timer1s, reset=timer_reset)`
(lines 252-254): the adjusted EMA, with per-tick decay `a`, of the values
`VWA` has produced; valid once `VWA` has ticked at least once. -/
def EWA_at (a : ℚ) (s : Nat) (hist : List CryptoTradeData) (u : Nat) : Option FV :=
  match vwaTickTimes s hist u with
  | [] => none
  | w :: ws => some (emaAdjFV a ((w :: ws).map (fun v => vwaValAt s hist v)))

/-- The most recent trigger time at or before `v` at which `VWA` ticked:
the lookup `csp.value_at(VWA, -lag)` resolves the lagged sample here. -/
def lastVwaTickLE (s : Nat) (hist : List CryptoTradeData) (v : Nat) : Option Nat :=
  (vwaTickTimes s hist v).getLast?

/-- `diff_1min_ago = csp.diff(VWA, lag=timedelta(minutes=1))` (line 260):
when `VWA` ticks and a sample at least 60s old exists, the difference
between the current `VWA` and the value it held 60s ago; no tick before a
60s-lagged sample exists. -/
def diff_1min_ago_at (s : Nat) (hist : List CryptoTradeData) (u : Nat) : Option FV :=
  if vwaTicksAt s hist u then
    match lastVwaTickLE s hist (u - 60000) with
    | some w => some (fsub (vwaValAt s hist u) (vwaValAt s hist w))
    | none => none
  else none

/-- `return_1min = csp.divide(diff_1min_ago, csp.add(VWA, diff_1min_ago))`
(line 261): the denominator is the CURRENT `VWA` plus the difference. -/
def return_1min_at (s : Nat) (hist : List CryptoTradeData) (u : Nat) : Option FV :=
  (diff_1min_ago_at s hist u).map (fun d => fdiv d (fadd (vwaValAt s hist u) d))

/-- The `return_1min` values produced at trigger times in `(lo, u]`. -/
def returnTicksIn (s : Nat) (hist : List CryptoTradeData) (lo u : Nat) : List FV :=
  ((ticks1s u).filter (fun w => lo < w)).filterMap (fun w => return_1min_at s hist w)

/-- `volitality_60s = csp.stats.stddev(return_1min, interval=60s,
min_window=1s, trigger=timer1s)` (line 262); value modelled as the sample
variance (see `varianceFV`). -/
def volitality_60s_at (s : Nat) (hist : List CryptoTradeData) (u : Nat) : Option FV :=
  if s + 1000 ≤ u then some (varianceFV (returnTicksIn s hist (u - 60000) u)) else none

/-- The `volitality_60s` values produced at trigger times in `(lo, u]`. -/
def vol60TicksIn (s : Nat) (hist : List CryptoTradeData) (lo u : Nat) : List FV :=
  ((ticks1s u).filter (fun w => lo < w)).filterMap (fun w => volitality_60s_at s hist w)

/-- `volitality_MA5mins = csp.stats.mean(volitality_60s, interval=600s,
min_window=1s, trigger=timer1s)` (line 263). -/
def volitality_MA5mins_at (s : Nat) (hist : List CryptoTradeData) (u : Nat) : Option FV :=
  if s + 1000 ≤ u then some (meanFV (vol60TicksIn s hist (u - 600000) u)) else none

/-- `volitality_stddev = csp.stats.stddev(volitality_60s, interval=600s,
min_window=1s, trigger=timer1s)` (line 264). -/
def volitality_stddev_at (s : Nat) (hist : List CryptoTradeData) (u : Nat) : Option FV :=
  if s + 1000 ≤ u then some (varianceFV (vol60TicksIn s hist (u - 600000) u)) else none

/-- `buy_pressure = csp.divide(count_buy, csp.add(count_buy, count_sell))`
(lines 267-268): ticks whenever the two sums tick (both share the 5s
warm-up); the division is NOT guarded against a zero denominator. -/
def buy_pressure_at (s : Nat) (hist : List CryptoTradeData) (u : Nat) : Option FV :=
  if s + 5000 ≤ u then
    let buyV := FV.num (((windowTrades hist 60000 u).filter
      (fun tr => tr.sellorbuy = 2)).map CryptoTradeData.volume).sum
    let sellV := FV.num (((windowTrades hist 60000 u).filter
      (fun tr => tr.sellorbuy = 1)).map CryptoTradeData.volume).sum
    some (fdiv buyV (fadd buyV sellV))
  else none

/-- `latest_trade_time = trades.trade_time` (line 271): the exchange
timestamp of the most recently arrived trade of the key, valid once any
trade has arrived. -/
def latest_trade_time_at (hist : List CryptoTradeData) (t : Nat) : Option Nat :=
  ((hist.filter (fun tr => tr.arrival ≤ t)).getLast?).map CryptoTradeData.trade_time

/-- The validity conjunction of `combine_ticker_statistics` (lines 189-193):
all 13 numeric inputs are valid. -/
def allValid13 (tc vwa e60 e120 e180 r1 v60 vma vsd cs cb bp vs : Option FV) : Bool :=
  tc.isSome && vwa.isSome && e60.isSome && e120.isSome && e180.isSome &&
  r1.isSome && v60.isSome && vma.isSome && vsd.isSome && cs.isSome &&
  cb.isSome && bp.isSome && vs.isSome

/-- `combine_ticker_statistics` (lines 167-222): on a tick of `trigger`,
emit a record iff all 13 metrics are valid; `trade_time` is the latest
trade time when valid, else the wall clock `csp.now()` (lines 195-202);
`timestamp` is its `.timestamp()` value in seconds. -/
def combine_ticker_statistics (pair : String) (trigger : Bool)
    (tc vwa e60 e120 e180 r1 v60 vma vsd cs cb bp vs : Option FV)
    (latest : Option Nat) (nowMs : Nat) : Option TickerStatisticsData :=
  if trigger then
    if allValid13 tc vwa e60 e120 e180 r1 v60 vma vsd cs cb bp vs then
      let tt := latest.getD nowMs
      some { pair := pair,
             trade_count := tc.getD FV.nan, VWA := vwa.getD FV.nan,
             EWA60s := e60.getD FV.nan, EWA120s := e120.getD FV.nan,
             EWA180s := e180.getD FV.nan, return_1min := r1.getD FV.nan,
             volitality_60s := v60.getD FV.nan,
             volitality_MA5mins := vma.getD FV.nan,
             volitality_stddev := vsd.getD FV.nan,
             sell_count := cs.getD FV.nan, buy_count := cb.getD FV.nan,
             buy_pressure := bp.getD FV.nan, volumn_60s := vs.getD FV.nan,
             timestamp := (tt : ℚ) / 1000, trade_time := tt }
    else none
  else none

/-- The validity conjunction instantiated with the 13 metric series of one
subgraph, read as of the most recent 1-second trigger `u`. -/
def gateAllValid (a60 a120 a180 : ℚ) (s : Nat) (hist : List CryptoTradeData)
    (u : Nat) : Bool :=
  allValid13 (trade_count_at s hist u) (VWA_at s hist u)
    (EWA_at a60 s hist u) (EWA_at a120 s hist u) (EWA_at a180 s hist u)
    (return_1min_at s hist u) (volitality_60s_at s hist u)
    (volitality_MA5mins_at s hist u) (volitality_stddev_at s hist u)
    (count_sell_at s hist u) (count_buy_at s hist u)
    (buy_pressure_at s hist u) (volumn_sum_1min_at s hist u)

/-- The output series of `ticker_statistics_subgraph` (lines 224-278) for
the subgraph created at `s` over `hist`, observed at engine time `t`: the
statistics hold the values of their most recent 1-second trigger
(`floor1s t`), and the combining node is triggered by the LOCAL 1-minute
timer of line 237 (which shadows the `timer1m` parameter). -/
def ticker_statistics_subgraph (a60 a120 a180 : ℚ) (pair : String) (s : Nat)
    (hist : List CryptoTradeData) (t : Nat) : Option TickerStatisticsData :=
  combine_ticker_statistics pair (localMinuteTick s t)
    (trade_count_at s hist (floor1s t)) (VWA_at s hist (floor1s t))
    (EWA_at a60 s hist (floor1s t)) (EWA_at a120 s hist (floor1s t))
    (EWA_at a180 s hist (floor1s t)) (return_1min_at s hist (floor1s t))
    (volitality_60s_at s hist (floor1s t))
    (volitality_MA5mins_at s hist (floor1s t))
    (volitality_stddev_at s hist (floor1s t))
    (count_sell_at s hist (floor1s t)) (count_buy_at s hist (floor1s t))
    (buy_pressure_at s hist (floor1s t))
    (volumn_sum_1min_at s hist (floor1s t))
    (latest_trade_time_at hist t) t

/-!
  ## Engine-level wiring (`crypto_multi_ticker_websocket_pipeline`, lines 294-351)
-/

/-- One routing step of `csp.dynamic_demultiplex` + `csp.dynamic`
(lines 313-325): a trade with an unseen pair registers a new subgraph at
the end of the registry, a seen pair leaves the registry unchanged. -/
def registerKey (ks : List String) (tr : CryptoTradeData) : List String :=
  if tr.pair ∈ ks then ks else ks ++ [tr.pair]

/-- The key registry after routing a list of trades: one subgraph per
distinct pair, created on first sighting, never removed, in order of
first appearance. -/
def keysOf (trades : List CryptoTradeData) : List String :=
  trades.foldl registerKey []

/-- The trades delivered up to engine time `t`. -/
def tradesUpTo (trades : List CryptoTradeData) (t : Nat) : List CryptoTradeData :=
  trades.filter (fun tr => tr.arrival ≤ t)

/-- The demultiplexed sub-stream of one key. -/
def histOf (trades : List CryptoTradeData) (k : String) : List CryptoTradeData :=
  trades.filter (fun tr => tr.pair = k)

/-- The engine time at which the subgraph of key `k` was created: the
arrival of the key's first trade. -/
def creationOf (trades : List CryptoTradeData) (k : String) : Nat :=
  ((histOf trades k).head?).elim 0 (fun tr => tr.arrival)

/-- The keys whose subgraphs exist at engine time `t`. -/
def registryAt (trades : List CryptoTradeData) (t : Nat) : List String :=
  keysOf (tradesUpTo trades t)

/-- `collected_stats = csp.dynamic_collect(dynamic_statistics)` (line 327):
at engine time `t`, the dictionary of the subgraph outputs that tick at
`t`, keyed by pair, in subgraph-creation order.  Subgraphs that do not
emit at `t` — in particular any that has never produced a record —
contribute nothing. -/
def dynamic_collect_at (a60 a120 a180 : ℚ) (trades : List CryptoTradeData)
    (t : Nat) : List (String × TickerStatisticsData) :=
  (registryAt trades t).filterMap (fun k =>
    (ticker_statistics_subgraph a60 a120 a180 k (creationOf trades k)
      (histOf trades k) t).map (fun r => (k, r)))

/-- `dict_to_list` (lines 282-286): the values of the collected dictionary. -/
def dict_to_list (l : List (String × TickerStatisticsData)) :
    List TickerStatisticsData :=
  l.map Prod.snd

/-- `individual_stats = csp.unroll(stats_list)` (lines 328-329): the records
of the batch, published one by one. -/
def individual_stats_at (a60 a120 a180 : ℚ) (trades : List CryptoTradeData)
    (t : Nat) : List TickerStatisticsData :=
  dict_to_list (dynamic_collect_at a60 a120 a180 trades t)

/-- `individual_stats_publish = csp.filter(individual_stats.volumn_60s > 1000,
individual_stats)` (line 331). -/
def individual_stats_publish_at (a60 a120 a180 : ℚ)
    (trades : List CryptoTradeData) (t : Nat) : List TickerStatisticsData :=
  (individual_stats_at a60 a120 a180 trades t).filter
    (fun r => fgt r.volumn_60s 1000)

/-- `trades_tracker` (lines 288-292): on each tick of the shared 1-minute
timer, emit the most recently arrived trade, if any trade has arrived. -/
def trades_tracker (trades : List CryptoTradeData) (t : Nat) :
    Option CryptoTradeData :=
  if timer1mTick t then (tradesUpTo trades t).getLast? else none

/-- `trades_flow = trades_tracker(trades_all, timer1m)` (line 311). -/
def trades_flow_at (trades : List CryptoTradeData) (t : Nat) :
    Option CryptoTradeData :=
  trades_tracker trades t

/-- Input of the live-sink trades table: `trades_table.publish(trades_flow)`
(line 348). -/
def trades_table_input (trades : List CryptoTradeData) (t : Nat) :
    Option CryptoTradeData :=
  trades_flow_at trades t

/-- Input of the durable-store trades writer:
`trades_writer.publish_struct(trades_flow)` (line 350) — the SAMPLED
stream, not `trades_all`. -/
def trades_writer_input (trades : List CryptoTradeData) (t : Nat) :
    Option CryptoTradeData :=
  trades_flow_at trades t

/-- Input of the live-sink statistics table:
`stats_table.publish(individual_stats_publish)` (line 349). -/
def stats_table_input (a60 a120 a180 : ℚ) (trades : List CryptoTradeData)
    (t : Nat) : List TickerStatisticsData :=
  individual_stats_publish_at a60 a120 a180 trades t

/-- Input of the durable-store statistics writer:
`stats_writer.publish_struct(individual_stats)` (line 351) — unfiltered. -/
def stats_writer_input (a60 a120 a180 : ℚ) (trades : List CryptoTradeData)
    (t : Nat) : List TickerStatisticsData :=
  individual_stats_at a60 a120 a180 trades t

/-- All trades the durable trades writer has received over the 1-minute
ticks up to horizon `H`. -/
def trackerEmitsUpTo (trades : List CryptoTradeData) (H : Nat) :
    List CryptoTradeData :=
  (List.range (H / 60000)).filterMap
    (fun k => trades_writer_input trades (60000 * (k + 1)))

/-!
  ## Concrete scenarios
-/

/-- Builds a trade whose exchange timestamp equals its engine arrival. -/
def mkTrade (pair : String) (price size : ℚ) (arrival sellorbuy : Nat) :
    CryptoTradeData :=
  { pair := pair, price := price, size := size, arrival := arrival,
    timestamp := arrival, sellorbuy := sellorbuy, exchange := 0 }

/-- One buy trade of key K1 at engine start. -/
def hist1 : List CryptoTradeData := [mkTrade "X:K1" 100 1 0 2]

/-- The warm-up scenario of the spec: a buy at t=0 and a sell at t=0.5s. -/
def hist8 : List CryptoTradeData :=
  [mkTrade "X:A" 100 1 0 2, mkTrade "X:A" 102 1 500 1]

/-- Two buys with different prices, 30s apart, so that the current VWA
differs from its 60s-lagged value at t=61s. -/
def hist4 : List CryptoTradeData :=
  [mkTrade "X:A" 100 1 0 2, mkTrade "X:A" 104 1 30000 2]

/-- A key whose second trade keeps the 60s volume above the 1000 activity
threshold at the 2-minute emission. -/
def histE : List CryptoTradeData :=
  [mkTrade "X:A" 2000 1 0 2, mkTrade "X:A" 2000 1 110000 2]

/-- Two keys first seen 500 ms apart, so their local 1-minute emission
timers never coincide. -/
def trades2 : List CryptoTradeData :=
  [mkTrade "X:K1" 100 1 0 2, mkTrade "X:K2" 50 1 500 2]

/-- Two trades of one key inside the same minute. -/
def trades3 : List CryptoTradeData :=
  [mkTrade "X:B" 10 1 100 2, mkTrade "X:B" 11 1 200 2]

/-- Trades arriving with regressing exchange timestamps: the second trade
arrives later but carries an earlier timestamp. -/
def histR : List CryptoTradeData :=
  [{ pair := "X:A", price := 1, size := 1, arrival := 100, timestamp := 1000,
     sellorbuy := 2, exchange := 0 },
   { pair := "X:A", price := 1, size := 1, arrival := 200, timestamp := 500,
     sellorbuy := 2, exchange := 0 }]

/-- Trades with non-decreasing arrivals and timestamps. -/
def histS : List CryptoTradeData :=
  [{ pair := "X:A", price := 1, size := 1, arrival := 400, timestamp := 500,
     sellorbuy := 2, exchange := 0 },
   { pair := "X:A", price := 1, size := 1, arrival := 800, timestamp := 900,
     sellorbuy := 2, exchange := 0 }]

/-- A single fresh-key buy trade, replicated for the 1000-trade test. -/
def trB : CryptoTradeData := mkTrade "X:B" 1 1 0 2


/-!
  ## Helper lemmas
-/

theorem registerKey_nodup (ks : List String) (tr : CryptoTradeData)
    (h : ks.Nodup) : (registerKey ks tr).Nodup := by
  unfold registerKey
  split
  · exact h
  · next hmem =>
      rw [List.nodup_append]
      exact ⟨h, List.nodup_singleton _, by
        intro a ha hb
        rw [List.mem_singleton] at hb
        exact hmem (hb ▸ ha)⟩

theorem foldl_registerKey_nodup (l : List CryptoTradeData) (acc : List String)
    (h : acc.Nodup) : (l.foldl registerKey acc).Nodup := by
  induction l generalizing acc with
  | nil => simpa using h
  | cons tr rest ih => exact ih _ (registerKey_nodup _ _ h)

theorem mem_registerKey (ks : List String) (tr : CryptoTradeData) (k : String) :
    k ∈ registerKey ks tr ↔ k ∈ ks ∨ k = tr.pair := by
  unfold registerKey
  split
  · next hmem =>
      constructor
      · exact fun h => Or.inl h
      · rintro (h | h)
        · exact h
        · exact h ▸ hmem
  · simp [List.mem_append]

theorem mem_foldl_registerKey (l : List CryptoTradeData) (acc : List String)
    (k : String) :
    k ∈ l.foldl registerKey acc ↔ k ∈ acc ∨ ∃ tr ∈ l, tr.pair = k := by
  induction l generalizing acc with
  | nil => simp
  | cons tr rest ih =>
      rw [List.foldl_cons, ih, mem_registerKey]
      constructor
      · rintro ((h | h) | ⟨tr2, h1, h2⟩)
        · exact Or.inl h
        · exact Or.inr ⟨tr, List.mem_cons_self _ _, h.symm⟩
        · exact Or.inr ⟨tr2, List.mem_cons_of_mem _ h1, h2⟩
      · rintro (h | ⟨tr2, h1, h2⟩)
        · exact Or.inl (Or.inl h)
        · rcases List.mem_cons.mp h1 with h3 | h3
          · exact Or.inl (Or.inr (h3 ▸ h2.symm))
          · exact Or.inr ⟨tr2, h3, h2⟩

theorem foldl_registerKey_const (l : List CryptoTradeData) (k : String)
    (h : ∀ tr ∈ l, tr.pair = k) : l.foldl registerKey [k] = [k] := by
  induction l with
  | nil => rfl
  | cons tr rest ih =>
      rw [List.foldl_cons]
      have hp : tr.pair = k := h tr (List.mem_cons_self _ _)
      have hstep : registerKey [k] tr = [k] := by
        unfold registerKey
        simp [hp]
      rw [hstep]
      exact ih (fun tr2 h2 => h tr2 (List.mem_cons_of_mem _ h2))

theorem keysOf_nodup (trades : List CryptoTradeData) : (keysOf trades).Nodup :=
  foldl_registerKey_nodup trades [] List.nodup_nil

theorem mem_keysOf (trades : List CryptoTradeData) (k : String) :
    k ∈ keysOf trades ↔ ∃ tr ∈ trades, tr.pair = k := by
  unfold keysOf
  rw [mem_foldl_registerKey]
  simp

theorem keysOf_const (l : List CryptoTradeData) (k : String)
    (hne : l ≠ []) (h : ∀ tr ∈ l, tr.pair = k) : keysOf l = [k] := by
  cases l with
  | nil => exact absurd rfl hne
  | cons tr rest =>
      unfold keysOf
      rw [List.foldl_cons]
      have hp : tr.pair = k := h tr (List.mem_cons_self _ _)
      have hstep : registerKey [] tr = [k] := by
        unfold registerKey
        simp [hp]
      rw [hstep]
      exact foldl_registerKey_const rest k (fun tr2 h2 => h tr2 (List.mem_cons_of_mem _ h2))

theorem map_fst_filterMap_sublist {β : Type} (l : List String)
    (f : String → Option (String × β)) (hf : ∀ a p, f a = some p → p.1 = a) :
    ((l.filterMap f).map Prod.fst).Sublist l := by
  induction l with
  | nil => simp
  | cons a rest ih =>
      rw [List.filterMap_cons]
      cases hfa : f a with
      | none => exact (ih).cons _
      | some p =>
          rw [List.map_cons]
          have hpa := hf a p hfa
          exact hpa ▸ List.Sublist.cons₂ _ ih

theorem rel_getLast?_of_pairwise {α : Type} {R : α → α → Prop} :
    ∀ (l : List α), l.Pairwise R → ∀ x ∈ l, ∀ y, l.getLast? = some y →
      x = y ∨ R x y := by
  intro l
  induction l with
  | nil => intro _ x hx; cases hx
  | cons a rest ih =>
      intro hp x hx y hy
      rcases List.pairwise_cons.mp hp with ⟨ha, hrest⟩
      cases rest with
      | nil =>
          rw [List.mem_singleton] at hx
          simp only [List.getLast?_singleton, Option.some.injEq] at hy
          exact Or.inl (hx.trans hy)
      | cons b rest2 =>
          have hy2 : (b :: rest2).getLast? = some y := by
            rwa [List.getLast?_cons_cons] at hy
          rcases List.mem_cons.mp hx with h | h
          · exact h ▸ Or.inr (ha y (List.mem_of_getLast?_eq_some hy2))
          · exact ih hrest x h y hy2

theorem headD_mem {α : Type} (l : List α) (d : α) (h : l ≠ []) :
    l.headD d ∈ l := by
  cases l with
  | nil => exact absurd rfl h
  | cons a rest => exact List.mem_cons_self _ _

theorem floor1s_le (t : Nat) : floor1s t ≤ t := by
  unfold floor1s
  rw [Nat.mul_comm]
  exact Nat.div_mul_le_self t 1000

theorem exists_trade_of_vwaTicks (s : Nat) (hist : List CryptoTradeData)
    (u : Nat) (h : vwaTicksAt s hist u = true) :
    ∃ tr ∈ hist, tr.arrival ≤ u := by
  unfold vwaTicksAt at h
  have h2 := (Bool.and_eq_true _ _).mp h |>.2
  rw [Bool.not_eq_true'] at h2
  unfold vwaSamples at h2
  have hd : (hist.filter (fun tr => lastReset s u ≤ tr.arrival && tr.arrival ≤ u)).drop
      ((hist.filter (fun tr => lastReset s u ≤ tr.arrival && tr.arrival ≤ u)).length - 100) ≠ [] := by
    intro hnil
    rw [hnil] at h2
    simp at h2
  have hl : hist.filter (fun tr => lastReset s u ≤ tr.arrival && tr.arrival ≤ u) ≠ [] := by
    intro hnil
    apply hd
    rw [hnil]
    simp
  obtain ⟨tr, htr⟩ := List.exists_mem_of_ne_nil _ hl
  have hmem := List.mem_filter.mp htr
  refine ⟨tr, hmem.1, ?_⟩
  have := (Bool.and_eq_true _ _).mp hmem.2 |>.2
  exact of_decide_eq_true this

theorem latest_trade_time_isSome (hist : List CryptoTradeData) (t : Nat)
    (tr : CryptoTradeData) (htr : tr ∈ hist) (hle : tr.arrival ≤ t) :
    (latest_trade_time_at hist t).isSome = true := by
  unfold latest_trade_time_at
  have hne : hist.filter (fun tr2 => tr2.arrival ≤ t) ≠ [] := by
    intro hnil
    have hmem : tr ∈ hist.filter (fun tr2 => tr2.arrival ≤ t) :=
      List.mem_filter.mpr ⟨htr, by simpa using hle⟩
    rw [hnil] at hmem
    cases hmem
  obtain ⟨a, ha⟩ := Option.isSome_iff_exists.mp (List.getLast?_isSome.mpr hne)
  rw [ha]
  rfl

theorem ticker_statistics_subgraph_isSome (a60 a120 a180 : ℚ) (pair : String)
    (s : Nat) (hist : List CryptoTradeData) (t : Nat) :
    (ticker_statistics_subgraph a60 a120 a180 pair s hist t).isSome
      = (localMinuteTick s t && gateAllValid a60 a120 a180 s hist (floor1s t)) := by
  unfold ticker_statistics_subgraph combine_ticker_statistics gateAllValid
  split
  · split
    · simp_all
    · simp_all
  · simp_all

theorem ticker_statistics_subgraph_some_fields (a60 a120 a180 : ℚ)
    (pair : String) (s : Nat) (hist : List CryptoTradeData) (t : Nat)
    (r : TickerStatisticsData)
    (h : ticker_statistics_subgraph a60 a120 a180 pair s hist t = some r) :
    localMinuteTick s t = true ∧
    gateAllValid a60 a120 a180 s hist (floor1s t) = true ∧
    r.trade_time = (latest_trade_time_at hist t).getD t ∧
    r.timestamp = (((latest_trade_time_at hist t).getD t : Nat) : ℚ) / 1000 ∧
    r.volumn_60s = (volumn_sum_1min_at s hist (floor1s t)).getD FV.nan := by
  unfold ticker_statistics_subgraph combine_ticker_statistics at h
  split at h
  · split at h
    · next h1 h2 =>
        rw [Option.some.injEq] at h
        subst h
        exact ⟨h1, h2, rfl, rfl, rfl⟩
    · exact absurd h (by simp)
  · exact absurd h (by simp)

theorem vwa_ticks_of_gate (a60 a120 a180 : ℚ) (s : Nat)
    (hist : List CryptoTradeData) (u : Nat)
    (h : gateAllValid a60 a120 a180 s hist u = true) :
    vwaTicksAt s hist u = true := by
  unfold gateAllValid allValid13 at h
  simp only [Bool.and_eq_true] at h
  have hv := h.1.1.1.1.1.1.1.1.1.1.1.2
  unfold VWA_at at hv
  cases hvt : vwaTicksAt s hist u with
  | true => rfl
  | false =>
      rw [hvt] at hv
      simp at hv

/-!
  ## Claim theorems
-/

/-- C1 (amended): a per-key pipeline emits a StatisticsRecord exactly when
its LOCAL 1-minute trigger (anchored at the subgraph's creation time)
ticks and all 13 numeric metrics are valid; the claim's 1-second cadence
is wrong — the combining node is wired to the minute timer of line 237. -/
theorem c1_emission_rule (a60 a120 a180 : ℚ) (pair : String) (s : Nat)
    (hist : List CryptoTradeData) (t : Nat) :
    (ticker_statistics_subgraph a60 a120 a180 pair s hist t).isSome
      = (localMinuteTick s t && gateAllValid a60 a120 a180 s hist (floor1s t)) :=
  ticker_statistics_subgraph_isSome a60 a120 a180 pair s hist t

/-- C1 counterexample: at engine time 61s — a 1-second trigger tick of a
subgraph created at time 0 with one trade — all 13 metrics are defined,
yet no record is emitted, because 61s is not a tick of the subgraph's
1-minute emission timer.  This refutes the claimed "record if and only if
all metrics defined on each 1-second trigger tick". -/
theorem c1_counterexample :
    timer1sTick 61000 = true ∧
    gateAllValid (1/2) (1/2) (1/2) 0 hist1 61000 = true ∧
    ticker_statistics_subgraph (1/2) (1/2) (1/2) "X:K1" 0 hist1 61000 = none := by
  refine ⟨by decide, by decide, by decide⟩

/-- C4 (amended): `return_1min` is undefined until a 60-second-lagged VWA
sample exists, and its value is `d / (current_vwap + d)` where
`d = current_vwap - vwap_60s_ago` — the denominator is the CURRENT VWA
plus the difference (line 261), not the lagged VWA plus the difference
(which would equal the current VWA alone). -/
theorem c4_return_formula (s : Nat) (hist : List CryptoTradeData) (u : Nat) :
    (lastVwaTickLE s hist (u - 60000) = none → return_1min_at s hist u = none) ∧
    (∀ w, vwaTicksAt s hist u = true → lastVwaTickLE s hist (u - 60000) = some w →
      return_1min_at s hist u =
        some (fdiv (fsub (vwaValAt s hist u) (vwaValAt s hist w))
          (fadd (vwaValAt s hist u)
            (fsub (vwaValAt s hist u) (vwaValAt s hist w))))) := by
  constructor
  · intro hn
    unfold return_1min_at diff_1min_ago_at
    cases hvt : vwaTicksAt s hist u <;> simp [hvt, hn]
  · intro w hvt hw
    unfold return_1min_at diff_1min_ago_at
    simp [hvt, hw]

/-- C4 counterexample: with trades at prices 100 (t=0) and 104 (t=30s),
at the 61s trigger the current VWA is 102 and the lagged VWA is 100, so
`d = 2`; the code produces `2 / 104 = 1/52`, while the claim's formula
`d / (vwap_60s_ago + d)` gives `2 / 102 = 1/51`. -/
theorem c4_counterexample :
    return_1min_at 0 hist4 61000 = some (FV.num (1/52)) ∧
    fdiv (fsub (vwaValAt 0 hist4 61000) (vwaValAt 0 hist4 1000))
        (fadd (vwaValAt 0 hist4 1000)
          (fsub (vwaValAt 0 hist4 61000) (vwaValAt 0 hist4 1000)))
      = FV.num (1/51) ∧
    (1/52 : ℚ) ≠ 1/51 := by
  refine ⟨by decide, by decide, by decide⟩

/-- C4 witness: the amended formula evaluated at the concrete scenario. -/
theorem c4_witness :
    return_1min_at 0 hist4 61000 =
      some (fdiv (fsub (vwaValAt 0 hist4 61000) (vwaValAt 0 hist4 1000))
        (fadd (vwaValAt 0 hist4 61000)
          (fsub (vwaValAt 0 hist4 61000) (vwaValAt 0 hist4 1000)))) :=
  (c4_return_formula 0 hist4 61000).2 1000 (by decide) (by decide)

/-- C6 (amended): whenever `buy_pressure` is defined and all trades have
nonnegative price and size, its value is either a finite rational in
the closed unit interval, or NaN — and NaN does occur, from the unguarded
0/0 division when the 60s windows of both volume sums are empty; a zero
denominator never raises a fault (the model's division is total). -/
theorem c6_buy_pressure_range (s : Nat) (hist : List CryptoTradeData)
    (u : Nat) (hpos : ∀ tr ∈ hist, 0 ≤ tr.price ∧ 0 ≤ tr.size) (v : FV)
    (hv : buy_pressure_at s hist u = some v) :
    v = FV.nan ∨ fIn01 v = true := by
  unfold buy_pressure_at at hv
  split at hv
  · rw [Option.some.injEq] at hv
    set B := (((windowTrades hist 60000 u).filter
      (fun tr => tr.sellorbuy = 2)).map CryptoTradeData.volume).sum with hBdef
    set S := (((windowTrades hist 60000 u).filter
      (fun tr => tr.sellorbuy = 1)).map CryptoTradeData.volume).sum with hSdef
    have hsum : ∀ (sb : Nat),
        0 ≤ (((windowTrades hist 60000 u).filter
          (fun tr => tr.sellorbuy = sb)).map CryptoTradeData.volume).sum := by
      intro sb
      apply List.sum_nonneg
      intro x hx
      obtain ⟨tr, htr, hxeq⟩ := List.mem_map.mp hx
      have hmem1 := (List.mem_filter.mp htr).1
      have hmem2 := (List.mem_filter.mp hmem1).1
      obtain ⟨hp, hs⟩ := hpos tr hmem2
      rw [← hxeq]
      exact mul_nonneg hp hs
    have hB : 0 ≤ B := hsum 2
    have hS : 0 ≤ S := hsum 1
    rw [show fadd (FV.num B) (FV.num S) = FV.num (B + S) from rfl] at hv
    by_cases hBS : B + S = 0
    · have hB0 : B = 0 := le_antisymm (by linarith) hB
      have hnan : fdiv (FV.num B) (FV.num (B + S)) = FV.nan := by
        simp only [fdiv]
        rw [if_pos hBS, if_pos hB0]
      rw [hnan] at hv
      exact Or.inl hv.symm
    · have hBSpos : 0 < B + S := lt_of_le_of_ne (by linarith) (Ne.symm hBS)
      have hval : fdiv (FV.num B) (FV.num (B + S)) = FV.num (B / (B + S)) := by
        simp only [fdiv]
        rw [if_neg hBS]
      rw [hval] at hv
      refine Or.inr ?_
      rw [← hv]
      unfold fIn01
      rw [decide_eq_true_eq]
      constructor
      · exact div_nonneg hB (le_of_lt hBSpos)
      · rw [div_le_one hBSpos]
        linarith
  · exact absurd hv (by simp)

/-- C6 witness: a single buy trade inside the window gives a defined
buy_pressure of 1, which the range theorem places in the unit interval. -/
theorem c6_witness :
    buy_pressure_at 0 hist1 6000 = some (FV.num 1) ∧
    (FV.num 1 = FV.nan ∨ fIn01 (FV.num 1) = true) :=
  ⟨by decide, c6_buy_pressure_range 0 hist1 6000 (by decide) (FV.num 1) (by decide)⟩

/-- C6 counterexample: 61s after a lone buy trade the 60s windows are
empty, both volume sums are 0, and `buy_pressure` ticks the DEFINED value
NaN (0/0) instead of being suppressed — refuting "defined implies in the
unit interval, undefined when the denominator is zero, never NaN". -/
theorem c6_counterexample :
    buy_pressure_at 0 hist1 61000 = some FV.nan ∧ fIn01 FV.nan = false := by
  refine ⟨by decide, by decide⟩

/-- C8: after the 1-second trigger at t=1s over the spec's two-trade
warm-up scenario, `volumn_60s` is still undefined (5s minimum window not
met) while `trade_count` is already defined (1s minimum window met),
with value 2. -/
theorem c8_warmup_thresholds :
    volumn_sum_1min_at 0 hist8 1000 = none ∧
    trade_count_at 0 hist8 1000 = some (FV.num 2) := by
  refine ⟨by decide, by decide⟩

/-- C10: whenever a record is emitted, the latest-trade-time series is
valid (a trade necessarily exists, because the VWA validity required by
the emission gate needs at least one sample), so the record's
`trade_time` is the most recent trade's exchange timestamp and its
`timestamp` is that value in seconds — the `csp.now()` fallback branch of
`combine_ticker_statistics` is unreachable. -/
theorem c10_trade_time_fallback_unreachable (a60 a120 a180 : ℚ)
    (pair : String) (s : Nat) (hist : List CryptoTradeData) (t : Nat)
    (r : TickerStatisticsData)
    (h : ticker_statistics_subgraph a60 a120 a180 pair s hist t = some r) :
    (latest_trade_time_at hist t).isSome = true ∧
    r.trade_time = (latest_trade_time_at hist t).getD t ∧
    r.timestamp = (((latest_trade_time_at hist t).getD t : Nat) : ℚ) / 1000 := by
  obtain ⟨h1, h2, h3, h4, h5⟩ :=
    ticker_statistics_subgraph_some_fields _ _ _ _ _ _ _ _ h
  have hvt := vwa_ticks_of_gate _ _ _ _ _ _ h2
  obtain ⟨tr, htr, hle⟩ := exists_trade_of_vwaTicks _ _ _ hvt
  exact ⟨latest_trade_time_isSome hist t tr htr (le_trans hle (floor1s_le t)),
    h3, h4⟩

/-- C10 witness: a concrete emission at the 2-minute tick, from which the
theorem yields the validity of the latest trade time. -/
theorem c10_witness :
    (ticker_statistics_subgraph (1/2) (1/2) (1/2) "X:A" 0 histE 120000).isSome
      = true ∧
    (latest_trade_time_at histE 120000).isSome = true := by
  have h : (ticker_statistics_subgraph (1/2) (1/2) (1/2) "X:A" 0 histE
      120000).isSome = true := by decide
  obtain ⟨r, hr⟩ := Option.isSome_iff_exists.mp h
  exact ⟨h, (c10_trade_time_fallback_unreachable _ _ _ _ _ _ _ _ hr).1⟩

/-- C2 (amended): the snapshot collector fires whenever any per-key
subgraph emits (each on its own minute cadence anchored at its creation
time) and the batch contains exactly the records emitted at that instant,
at most one per key and in registration order; pipelines that do not emit
at that instant — including any that has never produced — contribute
nothing.  Every record in a batch is the pipeline's current output. -/
theorem c2_snapshot_batch (a60 a120 a180 : ℚ) (trades : List CryptoTradeData)
    (t : Nat) :
    ((dynamic_collect_at a60 a120 a180 trades t).map Prod.fst).Nodup ∧
    (∀ k r, (k, r) ∈ dynamic_collect_at a60 a120 a180 trades t →
      k ∈ registryAt trades t ∧
      ticker_statistics_subgraph a60 a120 a180 k (creationOf trades k)
        (histOf trades k) t = some r) := by
  constructor
  · refine List.Nodup.sublist (map_fst_filterMap_sublist _ _ ?_) (keysOf_nodup _)
    intro a p hp
    rw [Option.map_eq_some'] at hp
    obtain ⟨rec, h1, h2⟩ := hp
    rw [← h2]
  · intro k r hmem
    unfold dynamic_collect_at at hmem
    obtain ⟨k0, hk0, hf⟩ := List.mem_filterMap.mp hmem
    rw [Option.map_eq_some'] at hf
    obtain ⟨rec, h1, h2⟩ := hf
    cases h2
    exact ⟨hk0, h1⟩

/-- C2 counterexample: keys K1 and K2 first seen 500 ms apart.  At engine
time 120.5s the collected batch contains only K2, although K1 is
registered and emitted a record at 120s: the collector does NOT gather
the latest record of every registered pipeline once per minute — each
pipeline surfaces only on its own creation-anchored minute ticks. -/
theorem c2_counterexample :
    (dynamic_collect_at (1/2) (1/2) (1/2) trades2 120500).map Prod.fst
      = ["X:K2"] ∧
    "X:K1" ∈ registryAt trades2 120500 ∧
    (ticker_statistics_subgraph (1/2) (1/2) (1/2) "X:K1"
      (creationOf trades2 "X:K1") (histOf trades2 "X:K1") 120000).isSome
      = true := by
  refine ⟨by decide, by decide, by decide⟩

/-- C2 witness: at a concrete collection instant the batch keys are
duplicate-free and the emitting key is registered. -/
theorem c2_witness :
    ((dynamic_collect_at (1/2) (1/2) (1/2) trades2 120500).map Prod.fst).Nodup ∧
    "X:K2" ∈ registryAt trades2 120500 := by
  have h := c2_snapshot_batch (1/2) (1/2) (1/2) trades2 120500
  refine ⟨h.1, ?_⟩
  have hne : dynamic_collect_at (1/2) (1/2) (1/2) trades2 120500 ≠ [] := by decide
  have hmem : (dynamic_collect_at (1/2) (1/2) (1/2) trades2 120500).headD
      ("", emptyStats) ∈ dynamic_collect_at (1/2) (1/2) (1/2) trades2 120500 :=
    headD_mem _ _ hne
  have hfst : ((dynamic_collect_at (1/2) (1/2) (1/2) trades2 120500).headD
      ("", emptyStats)).1 = "X:K2" := by decide
  have hpair : ("X:K2",
      ((dynamic_collect_at (1/2) (1/2) (1/2) trades2 120500).headD
        ("", emptyStats)).2)
      = (dynamic_collect_at (1/2) (1/2) (1/2) trades2 120500).headD
        ("", emptyStats) := by
    rw [← hfst]
  exact (h.2 _ _ (hpair ▸ hmem)).1

/-- C3 (amended): the durable trades writer is wired to `trades_flow`, the
SAME per-minute sampled stream the live trades table receives — not the
full tick stream — and it only ever carries a value on 1-minute timer
ticks; the durable statistics writer receives every emitted record,
unfiltered (a superset of the live statistics table's records). -/
theorem c3_sink_wiring :
    (∀ trades t, trades_writer_input trades t = trades_table_input trades t) ∧
    (∀ trades t, (trades_writer_input trades t).isSome = true →
      timer1mTick t = true) ∧
    (∀ (a60 a120 a180 : ℚ) trades t r,
      r ∈ stats_table_input a60 a120 a180 trades t →
      r ∈ stats_writer_input a60 a120 a180 trades t) := by
  refine ⟨fun trades t => rfl, ?_, ?_⟩
  · intro trades t h
    unfold trades_writer_input trades_flow_at trades_tracker at h
    by_cases htm : timer1mTick t = true
    · exact htm
    · rw [if_neg htm] at h
      simp at h
  · intro a60 a120 a180 trades t r h
    unfold stats_table_input individual_stats_publish_at at h
    unfold stats_writer_input
    exact (List.mem_filter.mp h).1

/-- C3 counterexample: of two trades inside the first minute, only the
later one is ever delivered to the durable trades writer (the tracker
samples the latest trade at each minute tick) — the durable store does
NOT receive every trade pushed by the source. -/
theorem c3_counterexample :
    mkTrade "X:B" 10 1 100 2 ∈ trades3 ∧
    mkTrade "X:B" 10 1 100 2 ∉ trackerEmitsUpTo trades3 600000 := by
  refine ⟨by decide, by decide⟩

/-- C3 witness: the two trade-sink inputs agree at a concrete instant, and
a concretely emitted live-sink record is in the durable statistics. -/
theorem c3_witness :
    trades_writer_input trades3 60000 = trades_table_input trades3 60000 ∧
    (individual_stats_publish_at (1/2) (1/2) (1/2) histE 120000).headD
      emptyStats ∈ stats_writer_input (1/2) (1/2) (1/2) histE 120000 := by
  refine ⟨c3_sink_wiring.1 trades3 60000, ?_⟩
  have hne : individual_stats_publish_at (1/2) (1/2) (1/2) histE 120000 ≠ [] := by
    decide
  exact c3_sink_wiring.2.2 (1/2) (1/2) (1/2) histE 120000 _ (headD_mem _ _ hne)

/-- C5: every record forwarded to the live statistics table satisfies
`volumn_60s > 1000` (strictly, per the IEEE comparison), and every such
record also reaches the durable statistics writer, whose record set is a
superset of the live one for the same instant. -/
theorem c5_filtering_law (a60 a120 a180 : ℚ) (trades : List CryptoTradeData)
    (t : Nat) (r : TickerStatisticsData)
    (h : r ∈ stats_table_input a60 a120 a180 trades t) :
    fgt r.volumn_60s 1000 = true ∧
    r ∈ stats_writer_input a60 a120 a180 trades t := by
  unfold stats_table_input individual_stats_publish_at at h
  unfold stats_writer_input
  have h2 := List.mem_filter.mp h
  exact ⟨h2.2, h2.1⟩

/-- C5 witness: a concrete record published to the live table at the
2-minute tick, shown above the threshold and present in the durable set. -/
theorem c5_witness :
    fgt (((stats_table_input (1/2) (1/2) (1/2) histE 120000).headD
      emptyStats).volumn_60s) 1000 = true ∧
    (stats_table_input (1/2) (1/2) (1/2) histE 120000).headD emptyStats
      ∈ stats_writer_input (1/2) (1/2) (1/2) histE 120000 := by
  have hne : stats_table_input (1/2) (1/2) (1/2) histE 120000 ≠ [] := by decide
  exact c5_filtering_law (1/2) (1/2) (1/2) histE 120000 _ (headD_mem _ _ hne)

/-- C7: the registry holds exactly one pipeline per distinct key (no
duplicates); every delivered trade's key is in the registry (no trade is
dropped for an unknown key); any number of trades of one previously
unseen key create exactly one pipeline; and every collected record's key
belongs to the (duplicate-free) registry, so it maps to exactly one
pipeline state. -/
theorem c7_new_key_lifecycle (a60 a120 a180 : ℚ)
    (trades : List CryptoTradeData) (t : Nat) (k : String) :
    (registryAt trades t).Nodup ∧
    (∀ tr ∈ trades, tr.arrival ≤ t → tr.pair ∈ registryAt trades t) ∧
    ((trades ≠ [] ∧ ∀ tr ∈ trades, tr.pair = k) → keysOf trades = [k]) ∧
    (∀ p r, (p, r) ∈ dynamic_collect_at a60 a120 a180 trades t →
      p ∈ registryAt trades t) := by
  refine ⟨keysOf_nodup _, ?_, ?_, ?_⟩
  · intro tr htr hle
    unfold registryAt
    rw [mem_keysOf]
    exact ⟨tr, List.mem_filter.mpr ⟨htr, by simpa using hle⟩, rfl⟩
  · rintro ⟨hne, hall⟩
    exact keysOf_const trades k hne hall
  · intro p r hmem
    unfold dynamic_collect_at at hmem
    obtain ⟨k0, hk0, hf⟩ := List.mem_filterMap.mp hmem
    rw [Option.map_eq_some'] at hf
    obtain ⟨rec, h1, h2⟩ := hf
    cases h2
    exact hk0

/-- C7 witness: routing 1000 trades of one previously unseen key creates
exactly one pipeline. -/
theorem c7_witness : keysOf (List.replicate 1000 trB) = ["X:B"] := by
  have h := c7_new_key_lifecycle (1/2) (1/2) (1/2) (List.replicate 1000 trB)
    0 "X:B"
  refine h.2.2.1 ⟨?_, ?_⟩
  · intro hnil
    have hlen := congrArg List.length hnil
    simp only [List.length_replicate, List.length_nil] at hlen
    exact absurd hlen (by decide)
  · intro tr htr
    rw [List.eq_of_mem_replicate htr]
    rfl

/-- C9 (amended): PROVIDED the key's trades arrive with non-decreasing
engine arrival and non-decreasing exchange timestamps, the pipeline's
latest-trade-time series is monotone and emitted records carry
non-decreasing `trade_time`.  The pipeline itself takes no maximum
(line 271 just mirrors the last trade), so the unconditional claim fails
on out-of-order exchange timestamps. -/
theorem c9_trade_time_monotone (hist : List CryptoTradeData) (t1 t2 : Nat)
    (hsorted : hist.Pairwise
      (fun a b => a.arrival ≤ b.arrival ∧ a.timestamp ≤ b.timestamp))
    (hle : t1 ≤ t2) :
    (∀ a b, latest_trade_time_at hist t1 = some a →
      latest_trade_time_at hist t2 = some b → a ≤ b) ∧
    (∀ (a60 a120 a180 : ℚ) (pair : String) (s : Nat) r1 r2,
      ticker_statistics_subgraph a60 a120 a180 pair s hist t1 = some r1 →
      ticker_statistics_subgraph a60 a120 a180 pair s hist t2 = some r2 →
      r1.trade_time ≤ r2.trade_time) := by
  have hmain : ∀ a b, latest_trade_time_at hist t1 = some a →
      latest_trade_time_at hist t2 = some b → a ≤ b := by
    intro a b ha hb
    unfold latest_trade_time_at at ha hb
    rw [Option.map_eq_some'] at ha hb
    obtain ⟨trA, hA1, hA2⟩ := ha
    obtain ⟨trB, hB1, hB2⟩ := hb
    have hsub : List.Sublist (hist.filter (fun tr => tr.arrival ≤ t1))
        (hist.filter (fun tr => tr.arrival ≤ t2)) := by
      apply List.monotone_filter_right
      intro tr htr
      simp only [decide_eq_true_eq] at htr ⊢
      exact le_trans htr hle
    have hmemA := hsub.subset (List.mem_of_getLast?_eq_some hA1)
    have hP : (hist.filter (fun tr => tr.arrival ≤ t2)).Pairwise
        (fun a b => a.arrival ≤ b.arrival ∧ a.timestamp ≤ b.timestamp) :=
      hsorted.filter _
    rcases rel_getLast?_of_pairwise _ hP trA hmemA trB hB1 with heq | hrel
    · rw [← hA2, ← hB2, heq]
    · rw [← hA2, ← hB2]
      exact hrel.2
  refine ⟨hmain, ?_⟩
  intro a60 a120 a180 pair s r1 r2 h1 h2
  obtain ⟨-, hg1, ht1, -, -⟩ :=
    ticker_statistics_subgraph_some_fields _ _ _ _ _ _ _ _ h1
  obtain ⟨-, hg2, ht2, -, -⟩ :=
    ticker_statistics_subgraph_some_fields _ _ _ _ _ _ _ _ h2
  have hv1 := vwa_ticks_of_gate _ _ _ _ _ _ hg1
  obtain ⟨tr, htr, hle1⟩ := exists_trade_of_vwaTicks _ _ _ hv1
  have hs1 := latest_trade_time_isSome hist t1 tr htr
    (le_trans hle1 (floor1s_le t1))
  have hs2 := latest_trade_time_isSome hist t2 tr htr
    (le_trans (le_trans hle1 (floor1s_le t1)) hle)
  obtain ⟨a, ha⟩ := Option.isSome_iff_exists.mp hs1
  obtain ⟨b, hb⟩ := Option.isSome_iff_exists.mp hs2
  rw [ht1, ht2, ha, hb]
  simp only [Option.getD_some]
  exact hmain a b ha hb

/-- C9 counterexample: a later-arriving trade carrying an EARLIER exchange
timestamp makes the pipeline's trade_time regress from 1000 ms to 500 ms
— nothing in the code enforces monotonicity over arbitrary processed
sequences. -/
theorem c9_counterexample :
    latest_trade_time_at histR 100 = some 1000 ∧
    latest_trade_time_at histR 200 = some 500 ∧
    (500 : Nat) < 1000 := by
  refine ⟨by decide, by decide, by decide⟩

/-- C9 witness: over well-ordered trades the latest trade time is
monotone between two concrete instants. -/
theorem c9_witness :
    latest_trade_time_at histS 500 = some 500 ∧
    latest_trade_time_at histS 60000 = some 900 ∧
    (500 : Nat) ≤ 900 := by
  refine ⟨by decide, by decide, ?_⟩
  exact (c9_trade_time_monotone histS 500 60000 (by decide) (by decide)).1
    500 900 (by decide) (by decide)
